import Mathlib

/-!
Shallow embedding of the `devfd` file-drop service (`src/main.rs`) and
proofs of the specification claims.

Strings are modelled as `List Char`; machine bytes as `Nat` (the octet
values); the 128-bit UUID value as a `Nat` below `2 ^ 128`.  Fallible
operations return `Option` or `Except`.
-/

namespace Devfd

/-! ### Hex characters

`hexDigit` is the lowercase hex formatter used by the `uuid` crate's
hyphenated `Display`; `hexVal` is the (case-insensitive) hex reader used
by `Uuid::parse_str`.  Character classes mirror the byte-range tests of
Rust's `char::is_ascii_alphanumeric` (`0-9`, `A-Z`, `a-z`). -/

def hexDigit (n : Nat) : Char :=
  if n < 10 then Char.ofNat (48 + n) else Char.ofNat (87 + n)

def hexVal (c : Char) : Option Nat :=
  if 48 ≤ c.toNat ∧ c.toNat ≤ 57 then some (c.toNat - 48)
  else if 97 ≤ c.toNat ∧ c.toNat ≤ 102 then some (c.toNat - 87)
  else if 65 ≤ c.toNat ∧ c.toNat ≤ 70 then some (c.toNat - 55)
  else none

/-- Rust `char::is_ascii_alphanumeric`. -/
def isAsciiAlphanumeric (c : Char) : Bool :=
  (48 ≤ c.toNat && c.toNat ≤ 57) ||
  (65 ≤ c.toNat && c.toNat ≤ 90) ||
  (97 ≤ c.toNat && c.toNat ≤ 122)

/-- A lowercase hex digit, as produced by the hyphenated UUID renderer. -/
def isLowerHexDigit (c : Char) : Bool :=
  (48 ≤ c.toNat && c.toNat ≤ 57) || (97 ≤ c.toNat && c.toNat ≤ 102)

/-! ### Rendering (`FileDescriptor::to_string`, uuid 0.8 hyphenated form)

`toHexAux len n acc` prepends the `len` lowercase hex digits of
`n % 16 ^ len` (most significant first) to `acc`. -/

def toHexAux : Nat → Nat → List Char → List Char
  | 0, _, acc => acc
  | len + 1, n, acc => toHexAux len (n / 16) (hexDigit (n % 16) :: acc)

/-- `Uuid::to_hyphenated_ref().to_string()`: the five dash-separated
groups of 8, 4, 4, 4 and 12 lowercase hex digits of the 128-bit value. -/
def uuidRender (u : Nat) : List Char :=
  toHexAux 8 (u / 16 ^ 24) [] ++ '-' ::
  (toHexAux 4 (u / 16 ^ 20) [] ++ '-' ::
  (toHexAux 4 (u / 16 ^ 16) [] ++ '-' ::
  (toHexAux 4 (u / 16 ^ 12) [] ++ '-' ::
  toHexAux 12 u [])))

/-! ### Parsing (`Uuid::parse_str`, uuid 0.8) -/

def parseHexAux : Nat → List Char → Option Nat
  | acc, [] => some acc
  | acc, c :: cs =>
    match hexVal c with
    | some v => parseHexAux (acc * 16 + v) cs
    | none => none

/-- Read a whole list of hex digits (either case) as a number. -/
def parseHex (cs : List Char) : Option Nat :=
  parseHexAux 0 cs

/-- Consume exactly `n` hex digits, returning their value and the rest. -/
def takeGroup (n : Nat) (cs : List Char) : Option (Nat × List Char) :=
  if (cs.take n).length = n then
    (parseHex (cs.take n)).map (fun v => (v, cs.drop n))
  else none

def expectHyphen : List Char → Option (List Char)
  | c :: rest => if c = '-' then some rest else none
  | [] => none

/-- The 36-character hyphenated branch of `Uuid::parse_str`: five hex
groups of 8, 4, 4, 4, 12 digits separated by single dashes. -/
def uuidParseHyphenated (cs : List Char) : Option Nat := do
  let (v1, cs) ← takeGroup 8 cs
  let cs ← expectHyphen cs
  let (v2, cs) ← takeGroup 4 cs
  let cs ← expectHyphen cs
  let (v3, cs) ← takeGroup 4 cs
  let cs ← expectHyphen cs
  let (v4, cs) ← takeGroup 4 cs
  let cs ← expectHyphen cs
  let (v5, cs) ← takeGroup 12 cs
  if cs.isEmpty then
    pure ((((v1 * 16 ^ 4 + v2) * 16 ^ 4 + v3) * 16 ^ 4 + v4) * 16 ^ 12 + v5)
  else none

/-- The URN head `urn:uuid:` stripped by the 45-character branch. -/
def urnHead : List Char :=
  ['u', 'r', 'n', ':', 'u', 'u', 'i', 'd', ':']

/-- `Uuid::parse_str` (uuid 0.8): accepts the 45-character URN form, the
32-character simple (unhyphenated) hex form, and the 36-character
hyphenated form; everything else is a length error. -/
def uuidParse (cs : List Char) : Option Nat :=
  if cs.length = 45 then
    if cs.take 9 = urnHead then uuidParseHyphenated (cs.drop 9) else none
  else if cs.length = 32 then parseHex cs
  else if cs.length = 36 then uuidParseHyphenated cs
  else none

/-! ### `FromParam for FileDescriptor` -/

inductive FileDescriptorParamError where
  | Uuid
  | InvalidChars
  deriving DecidableEq, Repr

/-- `FromParam::from_param`: pre-filter to ASCII alphanumerics and
hyphens, then `Uuid::parse_str`. -/
def from_param (cs : List Char) : Except FileDescriptorParamError Nat :=
  if cs.all (fun c => isAsciiAlphanumeric c || c = '-') then
    match uuidParse cs with
    | some u => .ok u
    | none => .error .Uuid
  else
    .error .InvalidChars

/-! ### Address codec (`bytes_to_ip` and the encoding in `add_file`) -/

/-- `std::net::IpAddr`: a V4 address is exactly 4 octets, a V6 address
exactly 16 octets. -/
inductive IpAddr where
  | V4 (b0 b1 b2 b3 : Nat) : IpAddr
  | V6 (b0 b1 b2 b3 b4 b5 b6 b7 b8 b9 b10 b11 b12 b13 b14 b15 : Nat) :
      IpAddr
  deriving DecidableEq, Repr

/-- `bytes_to_ip`: dispatch on the buffer length; 16 bytes build a V6
address, 4 bytes a V4 address, anything else is `None`. -/
def bytes_to_ip (bytes : List Nat) : Option IpAddr :=
  if bytes.length = 16 then
    some (.V6 (bytes.getD 0 0) (bytes.getD 1 0) (bytes.getD 2 0)
      (bytes.getD 3 0) (bytes.getD 4 0) (bytes.getD 5 0) (bytes.getD 6 0)
      (bytes.getD 7 0) (bytes.getD 8 0) (bytes.getD 9 0) (bytes.getD 10 0)
      (bytes.getD 11 0) (bytes.getD 12 0) (bytes.getD 13 0)
      (bytes.getD 14 0) (bytes.getD 15 0))
  else if bytes.length = 4 then
    some (.V4 (bytes.getD 0 0) (bytes.getD 1 0) (bytes.getD 2 0)
      (bytes.getD 3 0))
  else none

/-- The encoding used by `add_file`: `a.octets().to_vec()` on either
variant (network order, most significant octet first). -/
def ip_octets : IpAddr → List Nat
  | .V6 b0 b1 b2 b3 b4 b5 b6 b7 b8 b9 b10 b11 b12 b13 b14 b15 =>
    [b0, b1, b2, b3, b4, b5, b6, b7, b8, b9, b10, b11, b12, b13, b14, b15]
  | .V4 b0 b1 b2 b3 => [b0, b1, b2, b3]

/-! ### Error taxonomy (`FileError`) -/

inductive FileError where
  | SqlError
  | IoError
  | Uuid
  | InvalidForm
  deriving DecidableEq, Repr

/-- The `#[response(status = ...)]` attribute on each `FileError`
variant. -/
def FileError.status : FileError → Nat
  | .SqlError => 500
  | .IoError => 500
  | .Uuid => 400
  | .InvalidForm => 422

/-! ### Metadata index and blob store state

The `file_index` table is an association list from the 128-bit
identifier value to `(name, upload_ip)`; the content root is an
association list from the blob's file name (the identifier's canonical
text) to its byte content. -/

structure FileInfo where
  fd : Nat
  name : Option (List Char)
  upload_ip : IpAddr
  deriving DecidableEq, Repr

structure SystemState where
  index : List (Nat × (Option (List Char) × List Nat))
  blobs : List (List Char × List Nat)
  deriving DecidableEq, Repr

/-- Point lookup by primary key in the `file_index` table. -/
def findRecord (idx : List (Nat × (Option (List Char) × List Nat)))
    (fd : Nat) : Option (Option (List Char) × List Nat) :=
  match idx with
  | [] => none
  | (k, v) :: rest => if k = fd then some v else findRecord rest fd

/-- File lookup under the content root. -/
def findBlob (blobs : List (List Char × List Nat)) (name : List Char) :
    Option (List Nat) :=
  match blobs with
  | [] => none
  | (k, v) :: rest => if k = name then some v else findBlob rest name

/-- `get_file`: `SELECT name, upload_ip FROM file_index WHERE fd = ?1`;
`RowNotFound` becomes `Ok(None)`, and an address that fails to decode
also becomes `Ok(None)`. -/
def get_file (st : SystemState) (fd : Nat) :
    Except FileError (Option FileInfo) :=
  match findRecord st.index fd with
  | none => .ok none
  | some (name, ipBytes) =>
    match bytes_to_ip ipBytes with
    | some a => .ok (some ⟨fd, name, a⟩)
    | none => .ok none

/-- `add_file`: encode the uploader address and insert the row. -/
def add_file (st : SystemState) (info : FileInfo) : SystemState :=
  { st with
    index := (info.fd, (info.name, ip_octets info.upload_ip)) :: st.index }

/-! ### Download path -/

/-- `FileDownload`: an opened blob stream plus the record that named
it. -/
structure FileDownload where
  content : List Nat
  info : FileInfo
  deriving DecidableEq, Repr

/-- The filename chosen by the `Responder`:
`self.1.name.unwrap_or_else(fd.to_string())`. -/
def responderFilename (d : FileDownload) : List Char :=
  d.info.name.getD (uuidRender d.info.fd)

/-- The `Content-Disposition` header value built by the `Responder`:
`format!` interpolates the filename verbatim between the quotes. -/
def contentDisposition (d : FileDownload) : List Char :=
  "attachment; filename=\"".toList ++ responderFilename d ++ ['"']

/-- `start_file_download`: look the record up, overlay the path-supplied
name if any, then open the blob (`FileDownload::open`); a missing blob
file is an `IoError`. -/
def start_file_download (st : SystemState) (fd : Nat)
    (nameOverride : Option (List Char)) :
    Except FileError (Option FileDownload) :=
  match get_file st fd with
  | .error e => .error e
  | .ok none => .ok none
  | .ok (some info) =>
    let info' :=
      match nameOverride with
      | some n => { info with name := some n }
      | none => info
    match findBlob st.blobs (uuidRender info'.fd) with
    | some content => .ok (some ⟨content, info'⟩)
    | none => .error .IoError

/-- The `GET /fd/<fd>` (and `/fd/<fd>/<name>`) route boundary: a failed
`FromParam` forwards to the rank-2 route, which answers
`FileError::uuid()`; a parsed identifier proceeds to
`start_file_download`. -/
def handle_download (st : SystemState) (param : List Char)
    (nameOverride : Option (List Char)) :
    Except FileError (Option FileDownload) :=
  match from_param param with
  | .error _ => .error .Uuid
  | .ok fd => start_file_download st fd nameOverride

/-- The HTTP status of a download outcome: `Ok(None)` is Rocket's 404,
`Ok(Some _)` streams with 200, and errors respond with their variant's
status. -/
def downloadStatus : Except FileError (Option FileDownload) → Nat
  | .ok none => 404
  | .ok (some _) => 200
  | .error e => e.status

/-! ### Upload path

`upload_file` runs `move_copy_to` (the blob write) and then `add_file`
(the metadata insert).  The two fallible effects are modelled by the
outcome flags `blobOk` and `dbOk`: a failed blob write raises the
`From<std::io::Error>` conversion (`IoError`) before `add_file` runs; a
failed insert raises the `From<SqlError>` conversion (`SqlError`) after
the blob exists. -/

def upload_file (st : SystemState) (fd : Nat) (name : Option (List Char))
    (content : List Nat) (addr : IpAddr) (blobOk dbOk : Bool) :
    SystemState × Except FileError (List Char) :=
  if blobOk then
    let st1 := { st with blobs := (uuidRender fd, content) :: st.blobs }
    if dbOk then
      (add_file st1 ⟨fd, name, addr⟩, .ok (uuidRender fd))
    else
      (st1, .error .SqlError)
  else
    (st, .error .IoError)

/-! ### Hex formatting and parsing lemmas -/

theorem hexVal_hexDigit : ∀ v < 16, hexVal (hexDigit v) = some v := by
  decide

theorem isLowerHexDigit_hexDigit :
    ∀ v < 16, isLowerHexDigit (hexDigit v) = true := by
  decide

theorem hexDigit_hexVal (c : Char) (h : isLowerHexDigit c = true) :
    ∃ v, hexVal c = some v ∧ v < 16 ∧ hexDigit v = c := by
  simp only [isLowerHexDigit, Bool.or_eq_true, Bool.and_eq_true,
    decide_eq_true_eq] at h
  rcases h with ⟨h1, h2⟩ | ⟨h1, h2⟩
  · refine ⟨c.toNat - 48, ?_, by omega, ?_⟩
    · rw [hexVal, if_pos ⟨h1, h2⟩]
    · rw [hexDigit, if_pos (by omega : c.toNat - 48 < 10),
        (by omega : 48 + (c.toNat - 48) = c.toNat), Char.ofNat_toNat]
  · refine ⟨c.toNat - 87, ?_, by omega, ?_⟩
    · rw [hexVal, if_neg (by omega), if_pos ⟨h1, h2⟩]
    · rw [hexDigit, if_neg (by omega : ¬c.toNat - 87 < 10),
        (by omega : 87 + (c.toNat - 87) = c.toNat), Char.ofNat_toNat]

theorem toHexAux_length (len : Nat) :
    ∀ (n : Nat) (acc : List Char),
      (toHexAux len n acc).length = len + acc.length := by
  induction len with
  | zero => intro n acc; simp [toHexAux]
  | succ len ih =>
    intro n acc
    simp only [toHexAux, ih]
    simp
    omega

theorem toHexAux_append (len : Nat) :
    ∀ (n : Nat) (acc : List Char),
      toHexAux len n acc = toHexAux len n [] ++ acc := by
  induction len with
  | zero => intro n acc; rfl
  | succ len ih =>
    intro n acc
    simp only [toHexAux]
    rw [ih (n / 16) (hexDigit (n % 16) :: acc),
      ih (n / 16) [hexDigit (n % 16)], List.append_assoc,
      List.singleton_append]

theorem toHexAux_mod (len : Nat) :
    ∀ (n : Nat) (acc : List Char),
      toHexAux len (n % 16 ^ len) acc = toHexAux len n acc := by
  induction len with
  | zero => intro n acc; rfl
  | succ len ih =>
    intro n acc
    have e1 : n % 16 ^ (len + 1) % 16 = n % 16 :=
      Nat.mod_mod_of_dvd n (dvd_pow_self 16 (Nat.succ_ne_zero len))
    have e2 : n % 16 ^ (len + 1) / 16 = n / 16 % 16 ^ len := by
      rw [pow_succ']
      exact Nat.mod_mul_right_div_self n 16 (16 ^ len)
    simp only [toHexAux]
    rw [e1, e2, ih]

theorem toHexAux_lower (len : Nat) :
    ∀ (n : Nat) (acc : List Char) (c : Char), c ∈ toHexAux len n acc →
      c ∈ acc ∨ isLowerHexDigit c = true := by
  induction len with
  | zero => intro n acc c h; exact Or.inl h
  | succ len ih =>
    intro n acc c h
    simp only [toHexAux] at h
    rcases ih (n / 16) (hexDigit (n % 16) :: acc) c h with h' | h'
    · rcases List.mem_cons.mp h' with rfl | h''
      · exact Or.inr
          (isLowerHexDigit_hexDigit (n % 16) (Nat.mod_lt n (by norm_num)))
      · exact Or.inl h''
    · exact Or.inr h'

theorem mod_pow_succ16 (n len : Nat) :
    n % 16 ^ (len + 1) = n / 16 % 16 ^ len * 16 + n % 16 := by
  have h1 : n % 16 ^ (len + 1) % 16 = n % 16 :=
    Nat.mod_mod_of_dvd n (dvd_pow_self 16 (Nat.succ_ne_zero len))
  have h2 : n % 16 ^ (len + 1) / 16 = n / 16 % 16 ^ len := by
    rw [pow_succ']
    exact Nat.mod_mul_right_div_self n 16 (16 ^ len)
  have h3 := Nat.div_add_mod (n % 16 ^ (len + 1)) 16
  rw [h1, h2] at h3
  omega

theorem parseHexAux_toHexAux (len : Nat) :
    ∀ (n a : Nat) (acc : List Char),
      parseHexAux a (toHexAux len n acc) =
        parseHexAux (a * 16 ^ len + n % 16 ^ len) acc := by
  induction len with
  | zero => intro n a acc; simp [toHexAux, Nat.mod_one]
  | succ len ih =>
    intro n a acc
    simp only [toHexAux]
    rw [ih (n / 16) a (hexDigit (n % 16) :: acc)]
    simp only [parseHexAux,
      hexVal_hexDigit (n % 16) (Nat.mod_lt n (by norm_num))]
    congr 1
    rw [mod_pow_succ16, pow_succ]
    ring

theorem parseHex_toHexAux (len n : Nat) :
    parseHex (toHexAux len n []) = some (n % 16 ^ len) := by
  rw [parseHex, parseHexAux_toHexAux]
  simp [parseHexAux]

theorem parseHexAux_append (l1 : List Char) :
    ∀ (l2 : List Char) (a : Nat),
      parseHexAux a (l1 ++ l2) =
        (parseHexAux a l1).bind fun v => parseHexAux v l2 := by
  induction l1 with
  | nil => intro l2 a; rfl
  | cons c cs ih =>
    intro l2 a
    simp only [List.cons_append, parseHexAux]
    cases h : hexVal c with
    | none => rfl
    | some v => exact ih l2 (a * 16 + v)

theorem parseHex_inverse (cs : List Char)
    (h : ∀ c ∈ cs, isLowerHexDigit c = true) :
    ∃ v, parseHex cs = some v ∧ v < 16 ^ cs.length ∧
      toHexAux cs.length v [] = cs := by
  induction cs using List.reverseRecOn with
  | nil => exact ⟨0, rfl, by norm_num, rfl⟩
  | append_singleton cs c ih =>
    have hcs : ∀ x ∈ cs, isLowerHexDigit x = true := fun x hx =>
      h x (List.mem_append_left _ hx)
    have hc : isLowerHexDigit c = true :=
      h c (List.mem_append_right _ (List.mem_singleton_self c))
    obtain ⟨v, hp, hb, ht⟩ := ih hcs
    obtain ⟨w, hw, hw16, hwc⟩ := hexDigit_hexVal c hc
    refine ⟨v * 16 + w, ?_, ?_, ?_⟩
    · rw [parseHex, parseHexAux_append]
      rw [parseHex] at hp
      simp [hp, parseHexAux, hw]
    · calc v * 16 + w < (v + 1) * 16 := by omega
        _ ≤ 16 ^ cs.length * 16 := Nat.mul_le_mul_right 16 hb
        _ = 16 ^ (cs.length + 1) := (pow_succ 16 cs.length).symm
        _ = 16 ^ (cs ++ [c]).length := by simp
    · have hlen : (cs ++ [c]).length = cs.length + 1 := by simp
      rw [hlen]
      simp only [toHexAux]
      rw [(by omega : (v * 16 + w) / 16 = v),
        (by omega : (v * 16 + w) % 16 = w), toHexAux_append, ht, hwc]

/-! ### Grouped UUID parsing lemmas -/

theorem takeGroup_append (g rest : List Char) (n v : Nat)
    (hlen : g.length = n) (hp : parseHex g = some v) :
    takeGroup n (g ++ rest) = some (v, rest) := by
  simp [takeGroup, List.take_left' hlen, List.drop_left' hlen, hlen, hp]

theorem takeGroup_exact (g : List Char) (n v : Nat)
    (hlen : g.length = n) (hp : parseHex g = some v) :
    takeGroup n g = some (v, []) := by
  subst hlen
  simp [takeGroup, List.take_length, List.drop_length, hp]

theorem uuidParseHyphenated_groups (g1 g2 g3 g4 g5 : List Char)
    (v1 v2 v3 v4 v5 : Nat)
    (h1 : g1.length = 8) (hp1 : parseHex g1 = some v1)
    (h2 : g2.length = 4) (hp2 : parseHex g2 = some v2)
    (h3 : g3.length = 4) (hp3 : parseHex g3 = some v3)
    (h4 : g4.length = 4) (hp4 : parseHex g4 = some v4)
    (h5 : g5.length = 12) (hp5 : parseHex g5 = some v5) :
    uuidParseHyphenated
      (g1 ++ '-' :: (g2 ++ '-' :: (g3 ++ '-' :: (g4 ++ '-' :: g5)))) =
      some ((((v1 * 16 ^ 4 + v2) * 16 ^ 4 + v3) * 16 ^ 4 + v4) *
        16 ^ 12 + v5) := by
  simp [uuidParseHyphenated, takeGroup_append _ _ _ _ h1 hp1,
    expectHyphen, takeGroup_append _ _ _ _ h2 hp2,
    takeGroup_append _ _ _ _ h3 hp3, takeGroup_append _ _ _ _ h4 hp4,
    takeGroup_exact _ _ _ h5 hp5]

/-! ### Radix arithmetic for the five hex groups -/

theorem digits_recompose (u : Nat) (hu : u < 16 ^ 32) :
    (((u / 16 ^ 24 % 16 ^ 8 * 16 ^ 4 + u / 16 ^ 20 % 16 ^ 4) * 16 ^ 4 +
      u / 16 ^ 16 % 16 ^ 4) * 16 ^ 4 + u / 16 ^ 12 % 16 ^ 4) * 16 ^ 12 +
      u % 16 ^ 12 = u := by
  have e32 : (16 : Nat) ^ 32 = 340282366920938463463374607431768211456 :=
    by norm_num
  have e24 : (16 : Nat) ^ 24 = 79228162514264337593543950336 := by
    norm_num
  have e20 : (16 : Nat) ^ 20 = 1208925819614629174706176 := by norm_num
  have e16 : (16 : Nat) ^ 16 = 18446744073709551616 := by norm_num
  have e12 : (16 : Nat) ^ 12 = 281474976710656 := by norm_num
  have e8 : (16 : Nat) ^ 8 = 4294967296 := by norm_num
  have e4 : (16 : Nat) ^ 4 = 65536 := by norm_num
  rw [e32] at hu
  rw [e24, e20, e16, e12, e8, e4]
  omega

theorem horner_digits (v1 v2 v3 v4 v5 : Nat) (h1 : v1 < 16 ^ 8)
    (h2 : v2 < 16 ^ 4) (h3 : v3 < 16 ^ 4) (h4 : v4 < 16 ^ 4)
    (h5 : v5 < 16 ^ 12) :
    (((v1 * 16 ^ 4 + v2) * 16 ^ 4 + v3) * 16 ^ 4 + v4) * 16 ^ 12 + v5 <
      16 ^ 32 ∧
    ((((v1 * 16 ^ 4 + v2) * 16 ^ 4 + v3) * 16 ^ 4 + v4) * 16 ^ 12 + v5) /
      16 ^ 24 = v1 ∧
    ((((v1 * 16 ^ 4 + v2) * 16 ^ 4 + v3) * 16 ^ 4 + v4) * 16 ^ 12 + v5) /
      16 ^ 20 % 16 ^ 4 = v2 ∧
    ((((v1 * 16 ^ 4 + v2) * 16 ^ 4 + v3) * 16 ^ 4 + v4) * 16 ^ 12 + v5) /
      16 ^ 16 % 16 ^ 4 = v3 ∧
    ((((v1 * 16 ^ 4 + v2) * 16 ^ 4 + v3) * 16 ^ 4 + v4) * 16 ^ 12 + v5) /
      16 ^ 12 % 16 ^ 4 = v4 ∧
    ((((v1 * 16 ^ 4 + v2) * 16 ^ 4 + v3) * 16 ^ 4 + v4) * 16 ^ 12 + v5) %
      16 ^ 12 = v5 := by
  have e32 : (16 : Nat) ^ 32 = 340282366920938463463374607431768211456 :=
    by norm_num
  have e24 : (16 : Nat) ^ 24 = 79228162514264337593543950336 := by
    norm_num
  have e20 : (16 : Nat) ^ 20 = 1208925819614629174706176 := by norm_num
  have e16 : (16 : Nat) ^ 16 = 18446744073709551616 := by norm_num
  have e12 : (16 : Nat) ^ 12 = 281474976710656 := by norm_num
  have e8 : (16 : Nat) ^ 8 = 4294967296 := by norm_num
  have e4 : (16 : Nat) ^ 4 = 65536 := by norm_num
  rw [e8] at h1
  rw [e4] at h2 h3 h4
  rw [e12] at h5
  rw [e32, e24, e20, e16, e12, e4]
  refine ⟨?_, ?_, ?_, ?_, ?_, ?_⟩ <;> omega

/-! ### Claims about the identifier codec -/

/-- C2: parsing inverts rendering on every 128-bit identifier value,
and rendering inverts parsing on every canonically formatted text (five
dash-separated groups of 8, 4, 4, 4 and 12 lowercase hex digits). -/
theorem identifier_text_roundtrip (u : Nat) (g1 g2 g3 g4 g5 : List Char)
    (hu : u < 2 ^ 128)
    (hl1 : g1.length = 8) (hl2 : g2.length = 4) (hl3 : g3.length = 4)
    (hl4 : g4.length = 4) (hl5 : g5.length = 12)
    (hx1 : ∀ c ∈ g1, isLowerHexDigit c = true)
    (hx2 : ∀ c ∈ g2, isLowerHexDigit c = true)
    (hx3 : ∀ c ∈ g3, isLowerHexDigit c = true)
    (hx4 : ∀ c ∈ g4, isLowerHexDigit c = true)
    (hx5 : ∀ c ∈ g5, isLowerHexDigit c = true) :
    uuidParse (uuidRender u) = some u ∧
    ∃ v, uuidParse
        (g1 ++ '-' :: (g2 ++ '-' :: (g3 ++ '-' :: (g4 ++ '-' :: g5)))) =
        some v ∧
      uuidRender v =
        g1 ++ '-' :: (g2 ++ '-' :: (g3 ++ '-' :: (g4 ++ '-' :: g5))) := by
  have len1 : (toHexAux 8 (u / 16 ^ 24) []).length = 8 := by
    simp [toHexAux_length]
  have len2 : (toHexAux 4 (u / 16 ^ 20) []).length = 4 := by
    simp [toHexAux_length]
  have len3 : (toHexAux 4 (u / 16 ^ 16) []).length = 4 := by
    simp [toHexAux_length]
  have len4 : (toHexAux 4 (u / 16 ^ 12) []).length = 4 := by
    simp [toHexAux_length]
  have len5 : (toHexAux 12 u []).length = 12 := by
    simp [toHexAux_length]
  constructor
  · have hlen : (uuidRender u).length = 36 := by
      simp [uuidRender, toHexAux_length]
    simp only [uuidParse, hlen]
    norm_num
    simp only [uuidRender]
    rw [uuidParseHyphenated_groups _ _ _ _ _ _ _ _ _ _
      len1 (parseHex_toHexAux 8 (u / 16 ^ 24))
      len2 (parseHex_toHexAux 4 (u / 16 ^ 20))
      len3 (parseHex_toHexAux 4 (u / 16 ^ 16))
      len4 (parseHex_toHexAux 4 (u / 16 ^ 12))
      len5 (parseHex_toHexAux 12 u)]
    have hu' : u < 16 ^ 32 := by
      rw [show (16 : Nat) ^ 32 = 2 ^ 128 by norm_num]
      exact hu
    rw [digits_recompose u hu']
  · obtain ⟨v1, hp1, hb1, ht1⟩ := parseHex_inverse g1 hx1
    obtain ⟨v2, hp2, hb2, ht2⟩ := parseHex_inverse g2 hx2
    obtain ⟨v3, hp3, hb3, ht3⟩ := parseHex_inverse g3 hx3
    obtain ⟨v4, hp4, hb4, ht4⟩ := parseHex_inverse g4 hx4
    obtain ⟨v5, hp5, hb5, ht5⟩ := parseHex_inverse g5 hx5
    rw [hl1] at hb1 ht1
    rw [hl2] at hb2 ht2
    rw [hl3] at hb3 ht3
    rw [hl4] at hb4 ht4
    rw [hl5] at hb5 ht5
    obtain ⟨hlt, hd1, hd2, hd3, hd4, hd5⟩ :=
      horner_digits v1 v2 v3 v4 v5 hb1 hb2 hb3 hb4 hb5
    refine ⟨(((v1 * 16 ^ 4 + v2) * 16 ^ 4 + v3) * 16 ^ 4 + v4) * 16 ^ 12 +
      v5, ?_, ?_⟩
    · have hlent :
          (g1 ++ '-' :: (g2 ++ '-' :: (g3 ++ '-' :: (g4 ++ '-' ::
            g5)))).length = 36 := by
        simp [hl1, hl2, hl3, hl4, hl5]
      simp only [uuidParse, hlent]
      norm_num
      exact uuidParseHyphenated_groups _ _ _ _ _ _ _ _ _ _
        hl1 hp1 hl2 hp2 hl3 hp3 hl4 hp4 hl5 hp5
    · simp only [uuidRender]
      rw [hd1, ht1, ← toHexAux_mod 4 _ [], hd2, ht2,
        ← toHexAux_mod 4 _ [], hd3, ht3, ← toHexAux_mod 4 _ [], hd4, ht4,
        ← toHexAux_mod 12 _ [], hd5, ht5]

/-- Witness for C2 at the value 3 and at the canonical text of all
zeros except a trailing `f`. -/
theorem identifier_text_roundtrip_witness :
    uuidParse (uuidRender 3) = some 3 ∧
    ∃ v, uuidParse (List.replicate 8 '0' ++ '-' ::
        (List.replicate 4 '0' ++ '-' :: (List.replicate 4 '0' ++ '-' ::
        (List.replicate 4 '0' ++ '-' ::
        (List.replicate 11 '0' ++ ['f']))))) = some v ∧
      uuidRender v = List.replicate 8 '0' ++ '-' ::
        (List.replicate 4 '0' ++ '-' :: (List.replicate 4 '0' ++ '-' ::
        (List.replicate 4 '0' ++ '-' ::
        (List.replicate 11 '0' ++ ['f'])))) :=
  identifier_text_roundtrip 3 (List.replicate 8 '0')
    (List.replicate 4 '0') (List.replicate 4 '0') (List.replicate 4 '0')
    (List.replicate 11 '0' ++ ['f']) (by norm_num) (by decide)
    (by decide) (by decide) (by decide) (by decide) (by decide)
    (by decide) (by decide) (by decide) (by decide)

/-- C9: the canonical text of every identifier is 36 characters long
and consists of five dash-separated groups of 8, 4, 4, 4 and 12
lowercase hex digits. -/
theorem uuidRender_canonical_form (u : Nat) (_hu : u < 2 ^ 128) :
    (uuidRender u).length = 36 ∧
    ∃ g1 g2 g3 g4 g5 : List Char,
      uuidRender u =
        g1 ++ '-' :: (g2 ++ '-' :: (g3 ++ '-' :: (g4 ++ '-' :: g5))) ∧
      g1.length = 8 ∧ g2.length = 4 ∧ g3.length = 4 ∧ g4.length = 4 ∧
      g5.length = 12 ∧
      (∀ c ∈ g1, isLowerHexDigit c = true) ∧
      (∀ c ∈ g2, isLowerHexDigit c = true) ∧
      (∀ c ∈ g3, isLowerHexDigit c = true) ∧
      (∀ c ∈ g4, isLowerHexDigit c = true) ∧
      (∀ c ∈ g5, isLowerHexDigit c = true) := by
  have hex : ∀ (len n : Nat) (c : Char), c ∈ toHexAux len n [] →
      isLowerHexDigit c = true := fun len n c hc =>
    (toHexAux_lower len n [] c hc).resolve_left (List.not_mem_nil c)
  exact ⟨by simp [uuidRender, toHexAux_length],
    toHexAux 8 (u / 16 ^ 24) [], toHexAux 4 (u / 16 ^ 20) [],
    toHexAux 4 (u / 16 ^ 16) [], toHexAux 4 (u / 16 ^ 12) [],
    toHexAux 12 u [], rfl, by simp [toHexAux_length],
    by simp [toHexAux_length], by simp [toHexAux_length],
    by simp [toHexAux_length], by simp [toHexAux_length],
    fun c => hex 8 _ c, fun c => hex 4 _ c, fun c => hex 4 _ c,
    fun c => hex 4 _ c, fun c => hex 12 _ c⟩

/-- Witness for C9 at the value 3. -/
theorem uuidRender_canonical_form_witness :
    (uuidRender 3).length = 36 ∧
    ∃ g1 g2 g3 g4 g5 : List Char,
      uuidRender 3 =
        g1 ++ '-' :: (g2 ++ '-' :: (g3 ++ '-' :: (g4 ++ '-' :: g5))) ∧
      g1.length = 8 ∧ g2.length = 4 ∧ g3.length = 4 ∧ g4.length = 4 ∧
      g5.length = 12 ∧
      (∀ c ∈ g1, isLowerHexDigit c = true) ∧
      (∀ c ∈ g2, isLowerHexDigit c = true) ∧
      (∀ c ∈ g3, isLowerHexDigit c = true) ∧
      (∀ c ∈ g4, isLowerHexDigit c = true) ∧
      (∀ c ∈ g5, isLowerHexDigit c = true) :=
  uuidRender_canonical_form 3 (by norm_num)

/-! ### Completeness of the grouped parser -/

theorem parseHexAux_some_of_hex (cs : List Char)
    (h : ∀ c ∈ cs, (hexVal c).isSome = true) :
    ∀ a : Nat, ∃ v, parseHexAux a cs = some v := by
  induction cs with
  | nil => intro a; exact ⟨a, rfl⟩
  | cons c cs ih =>
    intro a
    obtain ⟨w, hw⟩ := Option.isSome_iff_exists.mp
      (h c (List.mem_cons_self c cs))
    obtain ⟨v, hv⟩ := ih (fun x hx => h x (List.mem_cons_of_mem c hx))
      (a * 16 + w)
    exact ⟨v, by simp [parseHexAux, hw, hv]⟩

theorem hex_of_parseHexAux_some (cs : List Char) :
    ∀ a v : Nat, parseHexAux a cs = some v →
      ∀ c ∈ cs, (hexVal c).isSome = true := by
  induction cs with
  | nil => intro a v _ c hc; exact absurd hc (List.not_mem_nil c)
  | cons c cs ih =>
    intro a v hp x hx
    rw [parseHexAux] at hp
    cases hw : hexVal c with
    | none => rw [hw] at hp; exact absurd hp (by simp)
    | some w =>
      rw [hw] at hp
      rcases List.mem_cons.mp hx with rfl | hx'
      · simp [hw]
      · exact ih (a * 16 + w) v hp x hx'

theorem takeGroup_inv (n v : Nat) (cs rest : List Char)
    (h : takeGroup n cs = some (v, rest)) :
    ∃ g, cs = g ++ rest ∧ g.length = n ∧ parseHex g = some v := by
  rw [takeGroup] at h
  by_cases hc : (cs.take n).length = n
  · rw [if_pos hc] at h
    cases hp : parseHex (cs.take n) with
    | none => rw [hp] at h; exact absurd h (by simp)
    | some w =>
      rw [hp] at h
      simp at h
      obtain ⟨rfl, rfl⟩ := h
      exact ⟨cs.take n, (List.take_append_drop n cs).symm, hc, hp⟩
  · rw [if_neg hc] at h
    exact absurd h (by simp)

theorem expectHyphen_inv (cs rest : List Char)
    (h : expectHyphen cs = some rest) : cs = '-' :: rest := by
  cases cs with
  | nil => simp [expectHyphen] at h
  | cons c cs' =>
    rw [expectHyphen] at h
    by_cases hc : c = '-'
    · rw [if_pos hc] at h
      simp only [Option.some_inj] at h
      rw [hc, h]
    · rw [if_neg hc] at h
      exact absurd h (by simp)

theorem uuidParseHyphenated_inv (cs : List Char) (u : Nat)
    (h : uuidParseHyphenated cs = some u) :
    ∃ g1 g2 g3 g4 g5 : List Char,
      cs = g1 ++ '-' :: (g2 ++ '-' :: (g3 ++ '-' :: (g4 ++ '-' :: g5))) ∧
      g1.length = 8 ∧ g2.length = 4 ∧ g3.length = 4 ∧ g4.length = 4 ∧
      g5.length = 12 ∧
      (∀ c ∈ g1, (hexVal c).isSome = true) ∧
      (∀ c ∈ g2, (hexVal c).isSome = true) ∧
      (∀ c ∈ g3, (hexVal c).isSome = true) ∧
      (∀ c ∈ g4, (hexVal c).isSome = true) ∧
      (∀ c ∈ g5, (hexVal c).isSome = true) := by
  simp only [uuidParseHyphenated, bind, Option.bind_eq_some] at h
  obtain ⟨⟨v1, cs1⟩, ht1, ⟨r1, hh1, ⟨⟨v2, cs2⟩, ht2, ⟨r2, hh2,
    ⟨⟨v3, cs3⟩, ht3, ⟨r3, hh3, ⟨⟨v4, cs4⟩, ht4, ⟨r4, hh4,
    ⟨⟨v5, cs5⟩, ht5, hfin⟩⟩⟩⟩⟩⟩⟩⟩⟩ := h
  obtain ⟨g1, rfl, hl1, hp1⟩ := takeGroup_inv _ _ _ _ ht1
  obtain ⟨g2, rfl, hl2, hp2⟩ := takeGroup_inv _ _ _ _ ht2
  obtain ⟨g3, rfl, hl3, hp3⟩ := takeGroup_inv _ _ _ _ ht3
  obtain ⟨g4, rfl, hl4, hp4⟩ := takeGroup_inv _ _ _ _ ht4
  obtain ⟨g5, rfl, hl5, hp5⟩ := takeGroup_inv _ _ _ _ ht5
  have e1 := expectHyphen_inv _ _ hh1
  have e2 := expectHyphen_inv _ _ hh2
  have e3 := expectHyphen_inv _ _ hh3
  have e4 := expectHyphen_inv _ _ hh4
  have hempty : cs5 = [] := by
    by_cases he : cs5.isEmpty
    · exact List.isEmpty_iff.mp he
    · rw [if_neg he] at hfin
      exact absurd hfin (by simp)
  subst hempty
  rw [List.append_nil] at *
  dsimp only at e1 e2 e3 e4
  refine ⟨g1, g2, g3, g4, g5, ?_, hl1, hl2, hl3, hl4, hl5,
    hex_of_parseHexAux_some g1 0 v1 hp1,
    hex_of_parseHexAux_some g2 0 v2 hp2,
    hex_of_parseHexAux_some g3 0 v3 hp3,
    hex_of_parseHexAux_some g4 0 v4 hp4,
    hex_of_parseHexAux_some g5 0 v5 hp5⟩
  rw [e1, e2, e3, e4]

/-- C3 counterexample: the 32-character unhyphenated hex string of all
zeros passes the character pre-filter and parses successfully (to the
zero identifier) even though it is not in the 36-character grouped
form, so parsing does not succeed *only* on the grouped form. -/
theorem simple_hex_form_accepted :
    ((List.replicate 32 '0').all
      fun c => isAsciiAlphanumeric c || c = '-') = true ∧
    from_param (List.replicate 32 '0') = .ok 0 ∧
    (List.replicate 32 '0').length = 32 :=
  ⟨rfl, rfl, rfl⟩

/-- C3 (amended): for input passing the character pre-filter, parsing
succeeds exactly when the input is the 32-character unhyphenated hex
form or the grouped 8-4-4-4-12 hex form (hex digits of either case),
and every parse failure after the pre-filter is the UUID error (the
invalid-identifier response). -/
theorem from_param_success_shapes (cs : List Char)
    (hpre : (cs.all fun c => isAsciiAlphanumeric c || c = '-') = true) :
    ((∃ u, from_param cs = .ok u) ↔
      ((cs.length = 32 ∧ ∀ c ∈ cs, (hexVal c).isSome = true) ∨
        ∃ g1 g2 g3 g4 g5 : List Char,
          cs = g1 ++ '-' :: (g2 ++ '-' :: (g3 ++ '-' ::
            (g4 ++ '-' :: g5))) ∧
          g1.length = 8 ∧ g2.length = 4 ∧ g3.length = 4 ∧
          g4.length = 4 ∧ g5.length = 12 ∧
          (∀ c ∈ g1, (hexVal c).isSome = true) ∧
          (∀ c ∈ g2, (hexVal c).isSome = true) ∧
          (∀ c ∈ g3, (hexVal c).isSome = true) ∧
          (∀ c ∈ g4, (hexVal c).isSome = true) ∧
          (∀ c ∈ g5, (hexVal c).isSome = true))) ∧
    ∀ e, from_param cs = .error e → e = .Uuid := by
  have hfw : ∀ u, uuidParse cs = some u → from_param cs = .ok u := by
    intro u hu
    unfold from_param
    rw [if_pos hpre, hu]
  have hbw : ∀ u, from_param cs = .ok u → uuidParse cs = some u := by
    intro u hu
    unfold from_param at hu
    rw [if_pos hpre] at hu
    cases hv : uuidParse cs with
    | some w => rw [hv] at hu; injection hu with h; rw [h]
    | none => rw [hv] at hu; exact absurd hu (by simp)
  have hnourn : ¬(cs.length = 45 ∧ cs.take 9 = urnHead) := by
    rintro ⟨_, hurn⟩
    have hcolon : ':' ∈ cs :=
      List.take_subset 9 cs (hurn ▸ (by decide : ':' ∈ urnHead))
    have hc := List.all_eq_true.mp hpre ':' hcolon
    exact absurd hc (by decide)
  constructor
  · constructor
    · rintro ⟨u, hu⟩
      have hp : uuidParse cs = some u := hbw u hu
      rw [uuidParse] at hp
      by_cases h45 : cs.length = 45
      · rw [if_pos h45] at hp
        by_cases hurn : cs.take 9 = urnHead
        · exact absurd ⟨h45, hurn⟩ hnourn
        · rw [if_neg hurn] at hp
          exact absurd hp (by simp)
      · rw [if_neg h45] at hp
        by_cases h32 : cs.length = 32
        · rw [if_pos h32] at hp
          exact Or.inl ⟨h32, hex_of_parseHexAux_some cs 0 u hp⟩
        · rw [if_neg h32] at hp
          by_cases h36 : cs.length = 36
          · rw [if_pos h36] at hp
            exact Or.inr (uuidParseHyphenated_inv cs u hp)
          · rw [if_neg h36] at hp
            exact absurd hp (by simp)
    · rintro (⟨h32, hhex⟩ | ⟨g1, g2, g3, g4, g5, rfl, hl1, hl2, hl3,
        hl4, hl5, hx1, hx2, hx3, hx4, hx5⟩)
      · obtain ⟨v, hv⟩ := parseHexAux_some_of_hex cs hhex 0
        refine ⟨v, hfw v ?_⟩
        rw [uuidParse, if_neg (by omega), if_pos h32]
        exact hv
      · obtain ⟨v1, hp1⟩ := parseHexAux_some_of_hex g1 hx1 0
        obtain ⟨v2, hp2⟩ := parseHexAux_some_of_hex g2 hx2 0
        obtain ⟨v3, hp3⟩ := parseHexAux_some_of_hex g3 hx3 0
        obtain ⟨v4, hp4⟩ := parseHexAux_some_of_hex g4 hx4 0
        obtain ⟨v5, hp5⟩ := parseHexAux_some_of_hex g5 hx5 0
        have hlen :
            (g1 ++ '-' :: (g2 ++ '-' :: (g3 ++ '-' ::
              (g4 ++ '-' :: g5)))).length = 36 := by
          simp [hl1, hl2, hl3, hl4, hl5]
        refine ⟨(((v1 * 16 ^ 4 + v2) * 16 ^ 4 + v3) * 16 ^ 4 + v4) *
          16 ^ 12 + v5, hfw _ ?_⟩
        rw [uuidParse, if_neg (by rw [hlen]; norm_num),
          if_neg (by rw [hlen]; norm_num), if_pos hlen]
        exact uuidParseHyphenated_groups _ _ _ _ _ _ _ _ _ _
          hl1 hp1 hl2 hp2 hl3 hp3 hl4 hp4 hl5 hp5
  · intro e he
    unfold from_param at he
    rw [if_pos hpre] at he
    cases hv : uuidParse cs with
    | some u => rw [hv] at he; exact absurd he (by simp)
    | none => rw [hv] at he; injection he with h; exact h.symm

/-- Witness for the amended C3: the all-zero simple form is accepted. -/
theorem from_param_success_shapes_witness :
    ∃ u, from_param (List.replicate 32 '0') = .ok u :=
  (from_param_success_shapes (List.replicate 32 '0') (by decide)).1.mpr
    (Or.inl ⟨by decide, by decide⟩)

/-! ### Claims about the address codec -/

/-- C7: `bytes_to_ip` yields an IPv4 address on a 4-byte buffer, an IPv6
address on a 16-byte buffer, and `none` (the absence sentinel of the
`Option` result, not an error) on every other length. -/
theorem bytes_to_ip_by_length (b : List Nat) :
    (b.length = 4 →
      bytes_to_ip b =
        some (.V4 (b.getD 0 0) (b.getD 1 0) (b.getD 2 0) (b.getD 3 0))) ∧
    (b.length = 16 →
      bytes_to_ip b =
        some (.V6 (b.getD 0 0) (b.getD 1 0) (b.getD 2 0) (b.getD 3 0)
          (b.getD 4 0) (b.getD 5 0) (b.getD 6 0) (b.getD 7 0) (b.getD 8 0)
          (b.getD 9 0) (b.getD 10 0) (b.getD 11 0) (b.getD 12 0)
          (b.getD 13 0) (b.getD 14 0) (b.getD 15 0))) ∧
    (b.length ≠ 4 → b.length ≠ 16 → bytes_to_ip b = none) := by
  refine ⟨fun h4 => ?_, fun h16 => ?_, fun h4 h16 => ?_⟩ <;>
    simp [bytes_to_ip, *]

/-- Witness for C7 at the 5-byte buffer of §8 of the spec. -/
theorem bytes_to_ip_by_length_witness :
    bytes_to_ip [1, 2, 3, 4, 5] = none :=
  (bytes_to_ip_by_length [1, 2, 3, 4, 5]).2.2 (by decide) (by decide)

/-- C8: encoding an address as in `add_file` (4 octets for IPv4, 16 for
IPv6, network order) and decoding with `bytes_to_ip` recovers the
original address. -/
theorem address_encode_decode_roundtrip :
    (∀ a : IpAddr, bytes_to_ip (ip_octets a) = some a) ∧
    (∀ b0 b1 b2 b3, (ip_octets (IpAddr.V4 b0 b1 b2 b3)).length = 4) ∧
    (∀ b0 b1 b2 b3 b4 b5 b6 b7 b8 b9 b10 b11 b12 b13 b14 b15,
      (ip_octets (IpAddr.V6 b0 b1 b2 b3 b4 b5 b6 b7 b8 b9 b10 b11 b12 b13
        b14 b15)).length = 16) := by
  refine ⟨fun a => ?_, fun _ _ _ _ => rfl, fun _ _ _ _ _ _ _ _ _ _ _ _ _ _ _ _ => rfl⟩
  cases a <;> rfl

/-! ### Claims about the transfer service -/

/-- C1: with the blob write failing, `upload_file` surfaces `IoError`
and leaves the state untouched, so no metadata record for the minted
identifier appears and `get_file` still reports the record absent; and
on any outcome, the record can only be present when the blob is. -/
theorem upload_blob_failure_no_record (st : SystemState) (fd : Nat)
    (name : Option (List Char)) (content : List Nat) (addr : IpAddr)
    (blobOk dbOk : Bool) (hfresh : findRecord st.index fd = none) :
    upload_file st fd name content addr false dbOk =
      (st, .error .IoError) ∧
    findRecord (upload_file st fd name content addr false dbOk).1.index
      fd = none ∧
    get_file (upload_file st fd name content addr false dbOk).1 fd =
      .ok none ∧
    (findRecord (upload_file st fd name content addr blobOk dbOk).1.index
        fd ≠ none →
      findBlob (upload_file st fd name content addr blobOk dbOk).1.blobs
        (uuidRender fd) = some content) := by
  refine ⟨rfl, hfresh, ?_, ?_⟩
  · simp [upload_file, get_file, hfresh]
  · intro hrec
    cases blobOk with
    | false => exact absurd hfresh hrec
    | true =>
      cases dbOk with
      | false => simp [upload_file, findBlob]
      | true => simp [upload_file, add_file, findBlob]

/-- Witness for C1 on the empty state. -/
theorem upload_blob_failure_no_record_witness :
    upload_file ⟨[], []⟩ 0 none [7] (.V4 127 0 0 1) false true =
      (⟨[], []⟩, .error .IoError) ∧
    findRecord (upload_file ⟨[], []⟩ 0 none [7] (.V4 127 0 0 1) false
      true).1.index 0 = none ∧
    get_file (upload_file ⟨[], []⟩ 0 none [7] (.V4 127 0 0 1) false
      true).1 0 = .ok none ∧
    (findRecord (upload_file ⟨[], []⟩ 0 none [7] (.V4 127 0 0 1) true
        true).1.index 0 ≠ none →
      findBlob (upload_file ⟨[], []⟩ 0 none [7] (.V4 127 0 0 1) true
        true).1.blobs (uuidRender 0) = some [7]) :=
  upload_blob_failure_no_record ⟨[], []⟩ 0 none [7] (.V4 127 0 0 1)
    true true rfl

/-- C5: a metadata row whose stored address bytes fail to decode makes
`get_file` report the record absent (`Ok(None)`), so the download ends
with status 404 rather than any error class. -/
theorem undecodable_address_maps_to_not_found (st : SystemState)
    (fd : Nat) (name : Option (List Char)) (ipBytes : List Nat)
    (o : Option (List Char))
    (hrec : findRecord st.index fd = some (name, ipBytes))
    (hbad : bytes_to_ip ipBytes = none) :
    get_file st fd = .ok none ∧
    start_file_download st fd o = .ok none ∧
    downloadStatus (start_file_download st fd o) = 404 := by
  have hg : get_file st fd = .ok none := by simp [get_file, hrec, hbad]
  refine ⟨hg, ?_, ?_⟩ <;> simp [start_file_download, hg, downloadStatus]

/-- Witness for C5 on a one-row index holding a 5-byte address. -/
theorem undecodable_address_maps_to_not_found_witness :
    get_file ⟨[(9, (none, [1, 2, 3, 4, 5]))], []⟩ 9 = .ok none ∧
    start_file_download ⟨[(9, (none, [1, 2, 3, 4, 5]))], []⟩ 9 none =
      .ok none ∧
    downloadStatus
      (start_file_download ⟨[(9, (none, [1, 2, 3, 4, 5]))], []⟩ 9 none) =
      404 :=
  undecodable_address_maps_to_not_found
    ⟨[(9, (none, [1, 2, 3, 4, 5]))], []⟩ 9 none [1, 2, 3, 4, 5] none
    (by decide) (by decide)

/-- C6: the filename attached by the responder is the path-supplied
override when present, otherwise the stored display name, otherwise the
identifier's canonical text. -/
theorem download_filename_precedence (st : SystemState) (fd : Nat)
    (override stored : Option (List Char)) (ipBytes : List Nat)
    (a : IpAddr) (content : List Nat)
    (hrec : findRecord st.index fd = some (stored, ipBytes))
    (hip : bytes_to_ip ipBytes = some a)
    (hblob : findBlob st.blobs (uuidRender fd) = some content) :
    start_file_download st fd override =
      .ok (some ⟨content, fd, override.or stored, a⟩) ∧
    responderFilename ⟨content, fd, override.or stored, a⟩ =
      (override.or stored).getD (uuidRender fd) := by
  refine ⟨?_, rfl⟩
  cases override <;>
    simp [start_file_download, get_file, hrec, hip, hblob, Option.or]

/-- Witness for C6: an override `"b"` beats the stored name `"a"`. -/
theorem download_filename_precedence_witness :
    start_file_download
      ⟨[(0, (some ['a'], [1, 2, 3, 4]))], [(uuidRender 0, [7])]⟩ 0
      (some ['b']) =
      .ok (some ⟨[7], 0, (Option.some ['b']).or (some ['a']),
        .V4 1 2 3 4⟩) ∧
    responderFilename
      ⟨[7], 0, (Option.some ['b']).or (some ['a']), .V4 1 2 3 4⟩ =
      ((Option.some ['b']).or (some ['a'])).getD (uuidRender 0) :=
  download_filename_precedence
    ⟨[(0, (some ['a'], [1, 2, 3, 4]))], [(uuidRender 0, [7])]⟩ 0
    (some ['b']) (some ['a']) [1, 2, 3, 4] (.V4 1 2 3 4) [7]
    (by decide) (by decide) (by simp [findBlob])

/-- C10: the `Content-Disposition` value is exactly the quoted
`attachment` template with the display name interpolated verbatim — no
escaping of quotes or control characters is applied to the name. -/
theorem content_disposition_verbatim (content : List Nat) (fd : Nat)
    (name : Option (List Char)) (a : IpAddr) :
    contentDisposition ⟨content, fd, name, a⟩ =
      "attachment; filename=\"".toList ++ name.getD (uuidRender fd) ++
        ['"'] :=
  rfl

/-- C4: a path parameter containing any character outside ASCII
alphanumerics and hyphens fails the pre-filter (`InvalidChars`, before
`Uuid::parse_str` runs), the route answers the invalid-identifier
error, and the outcome is independent of the storage state — the
request never reaches a lookup. -/
theorem invalid_chars_rejected_before_storage (param : List Char)
    (c : Char) (st st' : SystemState) (o o' : Option (List Char))
    (hc : c ∈ param) (hbad : (isAsciiAlphanumeric c || c = '-') = false) :
    from_param param = .error .InvalidChars ∧
    handle_download st param o = .error .Uuid ∧
    handle_download st param o = handle_download st' param o' := by
  have hall : param.all (fun c => isAsciiAlphanumeric c || c = '-') =
      false := by
    rw [List.all_eq_false]
    exact ⟨c, hc, by simp [hbad]⟩
  have hfp : from_param param = .error .InvalidChars := by
    simp [from_param, hall]
  exact ⟨hfp, by simp [handle_download, hfp],
    by simp [handle_download, hfp]⟩

/-- Witness for C4 on the spec's example of a parameter containing a
slash, against two different states. -/
theorem invalid_chars_rejected_before_storage_witness :
    from_param "abc/def".toList = .error .InvalidChars ∧
    handle_download ⟨[], []⟩ "abc/def".toList none = .error .Uuid ∧
    handle_download ⟨[], []⟩ "abc/def".toList none =
      handle_download ⟨[(0, (none, [1, 2, 3, 4]))], []⟩ "abc/def".toList
        (some ['x']) :=
  invalid_chars_rejected_before_storage "abc/def".toList '/' ⟨[], []⟩
    ⟨[(0, (none, [1, 2, 3, 4]))], []⟩ none (some ['x']) (by decide)
    (by decide)

end Devfd
